import Mathlib

/-!
Verification development for the string-extraction and false-positive
filtering core of `floss` (`src/floss/utils.py`).

The byte buffers of the Python code are modelled as `List Nat` (byte values),
Python `str` as Lean `String` (a list of characters), and the fallible /
optional values as `Option`.  The regular-expression substitutions performed
with `re.sub(pattern, replacement, s)` are modelled by a small backtracking
regex engine (`RE`, `reMatch`) whose match priority mirrors Python's
leftmost, first-alternative, greedy semantics, together with a scanning
substitution function (`reSubF`) that removes every non-overlapping match in
a single left-to-right pass, exactly as `re.sub` does.
-/

namespace Floss

/-- Modelled from the spec: the string encodings of §3 of the spec
(`floss/results.py` is not under `src/`): `ascii` and `utf16le` tags. -/
inductive StringEncoding where
  | ASCII : StringEncoding
  | UTF16LE : StringEncoding
deriving DecidableEq, Repr

/-- Modelled from the spec: `floss.results.StaticString` (not under `src/`).
`src/floss/utils.py` uses exactly the fields `string`, `offset` and
`encoding` of this record (§3 of the spec: `text`, `offset`, `encoding`). -/
structure StaticString where
  string : String
  offset : Nat
  encoding : StringEncoding
deriving DecidableEq, Repr

/-- Modelled from the spec: `floss.const.MAX_STRING_LENGTH` (not under
`src/`).  The spec only calls it "a fixed ceiling"; its value is irrelevant
to every claim below, we fix the constant 2048. -/
def MAX_STRING_LENGTH : Nat := 2048

/-- The full printable-ASCII alphabet entry of `FP_STRINGS`: the characters
0x20 (space) through 0x7E (tilde), in order, exactly the literal
`" !\"#$%&..~"` of `src/floss/utils.py`. -/
def fpAllPrintable : String :=
  String.mk ((List.range 95).map (fun i => Char.ofNat (32 + i)))

/-- The `FP_STRINGS` tuple of `src/floss/utils.py` (lines 126-136). -/
def FP_STRINGS : List String :=
  [ "R6016",
    "Program: ",
    "Runtime Error!",
    "<program name unknown>",
    "- floating point not loaded",
    "Program: <program name unknown>",
    "- not enough space for thread data",
    fpAllPrintable ]

/-! ### A small regex engine

Just enough of Python `re` to express `FP_FILTER_PREFIXES` and
`FP_FILTER_SUFFIXES`.  `reMatch r l` returns the list of possible remainders
(unconsumed tails) of `l` after a match of `r` at the head of `l`, ordered by
Python's backtracking priority: the head of the list is the remainder the
Python engine commits to.  Greedy `?` tries the consuming branch first;
alternation tries the left branch first. -/

/-- Regex abstract syntax: character literal, character class, `.` (any
character except newline), empty, concatenation, alternation, greedy `?`,
the greedy tail `(fe)*` (used to express `(fe){5,}` as five mandatory
copies followed by this star), and `$` (end of string, or just before a
final trailing newline, as in Python without `re.MULTILINE`). -/
inductive RE where
  | ch : Char → RE
  | cls : List Char → RE
  | dot : RE
  | eps : RE
  | cat : RE → RE → RE
  | alt : RE → RE → RE
  | opt : RE → RE
  | feStar : RE
  | eol : RE

/-- Remainders after zero or more copies of the literal `fe`, greedy
(most copies first), mirroring the backtracking order of `(fe)*`. -/
def feStarRem : List Char → List (List Char)
  | 'f' :: 'e' :: rest => feStarRem rest ++ ['f' :: 'e' :: rest]
  | l => [l]

/-- All remainders of `l` after a match of `r` at the head of `l`, in
Python backtracking priority order (head = committed match). -/
def reMatch : RE → List Char → List (List Char)
  | .ch c, l =>
    match l with
    | x :: xs => if x = c then [xs] else []
    | [] => []
  | .cls cs, l =>
    match l with
    | x :: xs => if cs.contains x then [xs] else []
    | [] => []
  | .dot, l =>
    match l with
    | x :: xs => if x = '\n' then [] else [xs]
    | [] => []
  | .eps, l => [l]
  | .cat r1 r2, l => (reMatch r1 l).flatMap (fun t => reMatch r2 t)
  | .alt r1 r2, l => reMatch r1 l ++ reMatch r2 l
  | .opt r, l => reMatch r l ++ [l]
  | .feStar, l => feStarRem l
  | .eol, l => if l = [] ∨ l = ['\n'] then [l] else []

/-- The literal string `s` as a regex (concatenation of its characters). -/
def reStr (s : String) : RE :=
  s.data.foldr (fun c acc => RE.cat (RE.ch c) acc) RE.eps

/-- Alternation of a list of regexes, left (earlier) alternative first. -/
def reAlts : List RE → RE
  | [] => RE.eps
  | [r] => r
  | r :: rs => RE.alt r (reAlts rs)

/-- The first, `^`-anchored alternative of `FP_FILTER_PREFIXES`
(`src/floss/utils.py` line 183): `^.?((p|P|0|W4|Q)?VA)(0|7Q|,)?` without
the leading `^`, which is handled positionally by `prefixMatchLen`. -/
def FP_FILTER_PREFIXES_A1 : RE :=
  RE.cat (RE.opt RE.dot)
    (RE.cat
      (RE.cat
        (RE.opt (reAlts [reStr "p", reStr "P", reStr "0", reStr "W4", reStr "Q"]))
        (reStr "VA"))
      (RE.opt (reAlts [reStr "0", reStr "7Q", reStr ","])))

/-- The remaining (unanchored) alternatives of `FP_FILTER_PREFIXES`:
`(0|P)?\\A | \[A | P\]A | @AA | fqd` + backtick + ` | (fe){5,} | (p|P)_A`. -/
def FP_FILTER_PREFIXES_REST : RE :=
  reAlts
    [ RE.cat (RE.opt (reAlts [reStr "0", reStr "P"])) (RE.cat (RE.ch '\\') (RE.ch 'A')),
      RE.cat (RE.ch '[') (RE.ch 'A'),
      reStr "P]A",
      reStr "@AA",
      reStr "fqd`",
      RE.cat (reStr "fefefefefe") RE.feStar,
      RE.cat (reAlts [reStr "p", reStr "P"]) (reStr "_A") ]

/-- `FP_FILTER_SUFFIXES` (`src/floss/utils.py` line 185):
`([0-9A-G>]VA|@AA|iiVV|j=p@|ids@|iDC@|i4C@|i%1@)$`. -/
def FP_FILTER_SUFFIXES : RE :=
  RE.cat
    (reAlts
      [ RE.cat (RE.cls ("0123456789ABCDEFG>".data)) (reStr "VA"),
        reStr "@AA",
        reStr "iiVV",
        reStr "j=p@",
        reStr "ids@",
        reStr "iDC@",
        reStr "i4C@",
        reStr "i%1@" ])
    RE.eol

/-- Length of the match (if any) that Python's engine commits to for
`FP_FILTER_PREFIXES` at the current position of the scan.  `atStart` is
true exactly at position 0, where the `^`-anchored first alternative is
tried first; everywhere else only the unanchored alternatives apply. -/
def prefixMatchLen (atStart : Bool) (l : List Char) : Option Nat :=
  (((if atStart then reMatch FP_FILTER_PREFIXES_A1 l else [])
      ++ reMatch FP_FILTER_PREFIXES_REST l).head?).map
    (fun t => l.length - t.length)

/-- Length of the match (if any) committed to for `FP_FILTER_SUFFIXES` at
the current position (the pattern is `$`-anchored; position-independent). -/
def suffixMatchLen (l : List Char) : Option Nat :=
  ((reMatch FP_FILTER_SUFFIXES l).head?).map (fun t => l.length - t.length)

/-- One left-to-right pass of `re.sub(pattern, "", s)` over `l`: at each
position, if the matcher `m` commits to a non-empty match, that span is
deleted and scanning resumes after it; otherwise the character is kept and
scanning advances by one.  (Python replaces a zero-width match by the empty
replacement and then copies the current character, which is the same as the
no-match step, so `some 0` is treated like `none`.)  `fuel` only bounds the
recursion; every step consumes at least one character, so `fuel = l.length`
makes the function total and equal to the unbounded scan. -/
def reSubF (m : Bool → List Char → Option Nat) : Nat → Bool → List Char → List Char
  | 0, _, l => l
  | Nat.succ fuel, atStart, l =>
    match l with
    | [] => []
    | x :: xs =>
      match m atStart (x :: xs) with
      | some (Nat.succ k) => reSubF m fuel false ((x :: xs).drop (Nat.succ k))
      | _ => x :: reSubF m fuel false xs

/-- `re.sub(pattern, "", s)` with matcher `m`, starting at position 0. -/
def reSubAll (m : Bool → List Char → Option Nat) (l : List Char) : List Char :=
  reSubF m l.length true l

/-- `strip_string` of `src/floss/utils.py` (lines 188-195): substitute the
prefix family, then the suffix family, each by one `re.sub` pass with the
empty replacement. -/
def strip_string (s : String) : String :=
  String.mk (reSubAll (fun _ t => suffixMatchLen t) (reSubAll prefixMatchLen s.data))

/-! ### Byte-level pre-filter (`strip_bytes`) -/

/-- Length of the initial run of byte `v` in `l`. -/
def runLen (v : Nat) : List Nat → Nat
  | [] => 0
  | x :: xs => if x = v then runLen v xs + 1 else 0

/-- One pass of `re.sub(FP_FILTER_REP_BYTES, b"\x00\x00", b)` where
`FP_FILTER_REP_BYTES = (.)\1{3,}` (`src/floss/utils.py` line 168): a maximal
run of four or more copies of one byte is replaced by two null bytes.  `.`
does not match the newline byte 10, so runs of byte 10 are never collapsed.
`fuel = b.length` suffices: every step consumes at least one byte. -/
def repSubF : Nat → List Nat → List Nat
  | 0, l => l
  | Nat.succ _, [] => []
  | Nat.succ fuel, x :: xs =>
    if x ≠ 10 ∧ 3 ≤ runLen x xs then
      0 :: 0 :: repSubF fuel (xs.drop (runLen x xs))
    else
      x :: repSubF fuel xs

/-- True iff `l` begins with four null bytes (the `\x00\x00\x00\x00` tail of
`FP_STACK_FILTER_1`). -/
def quadZeroAt : List Nat → Bool
  | 0 :: 0 :: 0 :: 0 :: _ => true
  | _ => false

/-- The greedy `.*\x00\x00\x00\x00` tail of `FP_STACK_FILTER_1` applied to
`l`: the largest number of bytes `.*` can consume (all ≠ 10, since `.`
excludes newline) such that four null bytes follow, if any. -/
def lastQuadIdx (l : List Nat) : Option Nat :=
  ((List.range ((l.takeWhile (fun b => b != 10)).length + 1)).reverse).find?
    (fun j => quadZeroAt (l.drop j))

/-- Length of the match (if any) of `FP_STACK_FILTER_1 = ...VA.*\x00{4}`
(`src/floss/utils.py` line 169) at the head of `l`: three non-newline bytes,
the bytes `V` (86) and `A` (65), then the greedy `.*\x00{4}` tail. -/
def stackMatchLen : List Nat → Option Nat
  | p :: q :: r :: 86 :: 65 :: rest =>
    if p ≠ 10 ∧ q ≠ 10 ∧ r ≠ 10 then
      (lastQuadIdx rest).map (fun j => 9 + j)
    else
      none
  | _ => none

/-- One pass of `re.sub(FP_STACK_FILTER_1, b"\x00\x00", b)`.
`fuel = b.length` suffices: every step consumes at least one byte. -/
def stackSubF : Nat → List Nat → List Nat
  | 0, l => l
  | Nat.succ _, [] => []
  | Nat.succ fuel, x :: xs =>
    match stackMatchLen (x :: xs) with
    | some k => 0 :: 0 :: stackSubF fuel ((x :: xs).drop k)
    | none => x :: stackSubF fuel xs

/-- `strip_bytes` of `src/floss/utils.py` (lines 172-178): when `enabled`
is false (the default) the buffer is returned unchanged; otherwise the
repeated-byte substitution is applied, followed by the stack-pattern
substitution. -/
def strip_bytes (b : List Nat) (enabled : Bool) : List Nat :=
  if enabled = false then b
  else
    let b1 := repSubF b.length b
    stackSubF b1.length b1

/-! ### Raw run extractor (modelled from the spec) -/

/-- Printable ASCII byte: space (0x20) through tilde (0x7E), §4.1's
"space through tilde" character class. -/
def isPrintableByte (x : Nat) : Bool := 32 ≤ x && x ≤ 126

/-- Maximal runs of printable ASCII bytes with their starting offsets,
accumulating the current run (offset, reversed bytes so far). -/
def asciiRunsAux : List Nat → Nat → Option (Nat × List Nat) → List (Nat × List Nat)
  | [], _, none => []
  | [], _, some (o, acc) => [(o, acc.reverse)]
  | x :: xs, i, none =>
    if isPrintableByte x then asciiRunsAux xs (i + 1) (some (i, [x]))
    else asciiRunsAux xs (i + 1) none
  | x :: xs, i, some (o, acc) =>
    if isPrintableByte x then asciiRunsAux xs (i + 1) (some (o, x :: acc))
    else (o, acc.reverse) :: asciiRunsAux xs (i + 1) none

/-- The maximal chain of two-byte little-endian printable code units
(printable ASCII byte followed by a null byte) at the head of `l`:
returns the decoded bytes and the unconsumed rest. -/
def pairChain : List Nat → (List Nat × List Nat)
  | x :: y :: rest =>
    if isPrintableByte x && y == 0 then
      let p := pairChain rest
      (x :: p.1, p.2)
    else ([], x :: y :: rest)
  | l => ([], l)

/-- Maximal UTF-16LE runs (starting at any byte offset) with their starting
offsets.  `fuel = l.length` suffices: every step consumes at least one
byte. -/
def utf16RunsF : Nat → List Nat → Nat → List (Nat × List Nat)
  | 0, _, _ => []
  | Nat.succ fuel, x :: y :: rest, i =>
    if isPrintableByte x && y == 0 then
      let p := pairChain rest
      (i, x :: p.1) :: utf16RunsF fuel p.2 (i + 2 + 2 * p.1.length)
    else
      utf16RunsF fuel (y :: rest) (i + 1)
  | Nat.succ _, _, _ => []

/-- Modelled from the spec: `floss.strings.extract_ascii_unicode_strings`
is not under `src/`.  Per §4.1 of the spec it reports every maximal run of
printable ASCII bytes (tagged `ascii`) and every maximal run of two-byte
little-endian printable code units (tagged `utf16le`), each with the byte
offset of its first byte; the interleaving between the two encodings is
unspecified beyond determinism, so the ASCII runs are listed first. -/
def extract_ascii_unicode_strings (b : List Nat) : List StaticString :=
  (asciiRunsAux b 0 none).map
    (fun r => ⟨String.mk (r.2.map Char.ofNat), r.1, StringEncoding.ASCII⟩)
  ++ (utf16RunsF b.length b 0).map
    (fun r => ⟨String.mk (r.2.map Char.ofNat), r.1, StringEncoding.UTF16LE⟩)

/-! ### The filter pipeline (`extract_strings`) -/

/-- The Python truthiness test `if exclude and decoded_string in exclude`
(`src/floss/utils.py` line 162): `None` and the empty set are falsy. -/
def excludeHit : Option (List String) → String → Bool
  | none, _ => false
  | some xs, d => !xs.isEmpty && decide (d ∈ xs)

/-- The body of the per-candidate loop of `extract_strings`
(`src/floss/utils.py` lines 148-165): maximum-length discard, exact
denylist discard, affix stripping, post-strip minimum-length re-check,
exclusion-set discard, then the yield of
`StaticString(decoded_string, s.offset, s.encoding)`. -/
def processCandidate (min_length : Int) (exclude : Option (List String))
    (s : StaticString) : Option StaticString :=
  if s.string.length > MAX_STRING_LENGTH then none
  else if s.string ∈ FP_STRINGS then none
  else
    let decoded_string := strip_string s.string
    if (decoded_string.length : Int) < min_length then none
    else if excludeHit exclude decoded_string then none
    else some ⟨decoded_string, s.offset, s.encoding⟩

/-- The per-candidate loop with the exact-denylist stage removed; used to
state that the denylist stage drops nothing but exact denylist matches. -/
def processCandidateSansDenylist (min_length : Int) (exclude : Option (List String))
    (s : StaticString) : Option StaticString :=
  if s.string.length > MAX_STRING_LENGTH then none
  else
    let decoded_string := strip_string s.string
    if (decoded_string.length : Int) < min_length then none
    else if excludeHit exclude decoded_string then none
    else some ⟨decoded_string, s.offset, s.encoding⟩

/-- `extract_strings` of `src/floss/utils.py` (lines 139-165).  The Python
code computes `buffer_stripped = strip_bytes(buffer)` (with `enabled` left
at its default `False`, a pure identity) before the short-circuit length
check on the original `buffer`; as `strip_bytes` is pure the order is
immaterial and the check is written first here.  `min_length` is an `Int`
because the Python parameter is a (possibly negative) `int`. -/
def extract_strings (buffer : List Nat) (min_length : Int)
    (exclude : Option (List String)) : List StaticString :=
  if (buffer.length : Int) < min_length then []
  else
    (extract_ascii_unicode_strings (strip_bytes buffer false)).filterMap
      (processCandidate min_length exclude)

end Floss

/-! ### Helper lemmas -/

namespace Floss

lemma filterMap_ext {α β : Type} (f g : α → Option β) (l : List α)
    (h : ∀ a, f a = g a) : l.filterMap f = l.filterMap g := by
  have hfg : f = g := funext h
  rw [hfg]

lemma intCast_length_nonneg (l : List Char) : (0 : Int) ≤ (l.length : Int) :=
  Int.natCast_nonneg _

/-! ### C4: short buffers yield the empty sequence -/

/-- C4: for every buffer `b` and `min_length` `L` with `len(b) < L`,
`extract_strings` yields the empty sequence (the short-circuit check at
`src/floss/utils.py` lines 145-146, before any candidate is produced). -/
theorem c4_short_buffer_empty (b : List Nat) (L : Int) (e : Option (List String))
    (h : (b.length : Int) < L) : extract_strings b L e = [] := by
  simp [extract_strings, h]

theorem c4_witness :
    ((([65] : List Nat).length : Int) < 5) ∧ extract_strings [65] 5 none = [] :=
  ⟨by decide, c4_short_buffer_empty [65] 5 none (by decide)⟩

/-! ### C10: the byte-level pre-filter is disabled inside `extract_strings` -/

/-- C10: `strip_bytes` called with its default disabled flag is the
identity, so the bytes handed to the run extractor by `extract_strings`
are exactly the caller's input buffer. -/
theorem c10_prefilter_disabled (b : List Nat) (L : Int) (e : Option (List String)) :
    strip_bytes b false = b
    ∧ extract_strings b L e =
        (if (b.length : Int) < L then []
         else (extract_ascii_unicode_strings b).filterMap (processCandidate L e)) := by
  refine ⟨rfl, ?_⟩
  simp [extract_strings, strip_bytes]

end Floss

namespace Floss

/-! ### C1: negative `min_length` is not rejected -/

/-- C1 counterexample: a call with negative `min_length` is not rejected
with any error signal; scanning proceeds and candidates are produced
(the bytes of `"hi!"` yield the candidate `"hi!"`). -/
theorem c1_counterexample :
    extract_strings [104, 105, 33] (-1) none = [⟨"hi!", 0, StringEncoding.ASCII⟩]
    ∧ extract_strings [104, 105, 33] (-1) none ≠ [] :=
  ⟨by decide, by decide⟩

/-- C1 amended: `extract_strings` performs no validation of `min_length`;
a call with negative `min_length` behaves exactly like a call with
`min_length = 0` (both length checks are vacuous), producing candidates
rather than rejecting the call. -/
theorem c1_amended_no_validation (b : List Nat) (L : Int)
    (e : Option (List String)) (h : L < 0) :
    extract_strings b L e = extract_strings b 0 e := by
  have hb : ¬ ((b.length : Int) < L) := by
    have h0 : (0 : Int) ≤ (b.length : Int) := Int.natCast_nonneg _
    omega
  have hb0 : ¬ ((b.length : Int) < 0) := by
    have h0 : (0 : Int) ≤ (b.length : Int) := Int.natCast_nonneg _
    omega
  unfold extract_strings
  rw [if_neg hb, if_neg hb0]
  apply filterMap_ext
  intro c
  unfold processCandidate
  have h1 : ¬ (((strip_string c.string).length : Int) < L) := by
    have h0 : (0 : Int) ≤ ((strip_string c.string).length : Int) := Int.natCast_nonneg _
    omega
  have h2 : ¬ (((strip_string c.string).length : Int) < 0) := by
    have h0 : (0 : Int) ≤ ((strip_string c.string).length : Int) := Int.natCast_nonneg _
    omega
  rw [if_neg h1, if_neg h2]

theorem c1_amended_witness :
    extract_strings [104, 105, 33] (-2) none = extract_strings [104, 105, 33] 0 none :=
  c1_amended_no_validation _ _ _ (by decide)

/-! ### C5: every yielded string is at least `min_length` long after stripping -/

/-- C5: every string yielded by `extract_strings` has length at least
`min_length` after affix stripping (the post-strip re-check at
`src/floss/utils.py` lines 155-156), so a candidate whose stripped form
falls below `min_length` never appears in the output. -/
theorem c5_yielded_length_ge (b : List Nat) (L : Int) (e : Option (List String))
    (s : StaticString) (h : s ∈ extract_strings b L e) :
    L ≤ (s.string.length : Int) := by
  unfold extract_strings at h
  split at h
  · simp at h
  · obtain ⟨c, _, hc⟩ := List.mem_filterMap.mp h
    simp only [processCandidate] at hc
    split at hc
    · exact absurd hc (by simp)
    · split at hc
      · exact absurd hc (by simp)
      · split at hc
        · exact absurd hc (by simp)
        · split at hc
          · exact absurd hc (by simp)
          · rename_i hlen _
            obtain rfl := Option.some.inj hc
            simpa using Int.not_lt.mp hlen

theorem c5_witness :
    ((⟨"hello", 0, StringEncoding.ASCII⟩ : StaticString)
        ∈ extract_strings [104, 101, 108, 108, 111] 4 none)
    ∧ (4 : Int) ≤ (((⟨"hello", 0, StringEncoding.ASCII⟩ : StaticString)).string.length : Int) :=
  ⟨by decide,
   c5_yielded_length_ge [104, 101, 108, 108, 111] 4 none
     ⟨"hello", 0, StringEncoding.ASCII⟩ (by decide)⟩

end Floss

namespace Floss

/-! ### C6: exact denylist discard -/

/-- C6: a candidate whose full decoded text, before affix stripping,
exactly equals an entry of `FP_STRINGS` (which includes `"Runtime Error!"`
and the full printable-ASCII alphabet string) is dropped; a candidate not
exactly equal to a denylist entry is not dropped by this stage (the
pipeline behaves as if the stage were absent); and a buffer consisting
solely of the bytes of `"Runtime Error!"` yields zero candidates. -/
theorem c6_denylist_exact :
    "Runtime Error!" ∈ FP_STRINGS
    ∧ fpAllPrintable ∈ FP_STRINGS
    ∧ (∀ (L : Int) (e : Option (List String)) (c : StaticString),
        c.string ∈ FP_STRINGS → processCandidate L e c = none)
    ∧ (∀ (L : Int) (e : Option (List String)) (c : StaticString),
        c.string ∉ FP_STRINGS →
          processCandidate L e c = processCandidateSansDenylist L e c)
    ∧ extract_strings [82, 117, 110, 116, 105, 109, 101, 32, 69, 114, 114, 111, 114, 33]
        4 none = [] := by
  refine ⟨by decide, by decide, ?_, ?_, by decide⟩
  · intro L e c hm
    unfold processCandidate
    split <;> rfl
  · intro L e c hm
    unfold processCandidate processCandidateSansDenylist
    split <;> rfl

theorem c6_witness :
    processCandidate 4 none ⟨"R6016", 0, StringEncoding.ASCII⟩ = none
    ∧ processCandidate 4 none ⟨"hey!", 7, StringEncoding.UTF16LE⟩
        = processCandidateSansDenylist 4 none ⟨"hey!", 7, StringEncoding.UTF16LE⟩ :=
  ⟨c6_denylist_exact.2.2.1 4 none _ (by decide),
   c6_denylist_exact.2.2.2.1 4 none _ (by decide)⟩

/-! ### C7: exclusion-set discard -/

lemma excludeHit_some (xs : List String) (d : String) :
    excludeHit (some xs) d = decide (d ∈ xs) := by
  cases xs with
  | nil => simp [excludeHit]
  | cons a l => simp [excludeHit]

lemma processCandidate_some_eq (L : Int) (xs : List String) (c : StaticString) :
    processCandidate L (some xs) c
      = (processCandidate L none c).bind
          (fun r => if r.string ∈ xs then none else some r) := by
  simp only [processCandidate]
  split
  · rfl
  · split
    · rfl
    · split
      · rfl
      · rw [excludeHit_some]
        by_cases hd : strip_string c.string ∈ xs
        · simp [excludeHit, hd]
        · simp [excludeHit, hd]

lemma filterMap_bind_filter {α β : Type} [DecidableEq β] (f : α → Option β)
    (p : β → Prop) [DecidablePred p] (l : List α) :
    l.filterMap (fun a => (f a).bind (fun r => if p r then none else some r))
      = (l.filterMap f).filter (fun r => decide ¬ p r) := by
  induction l with
  | nil => rfl
  | cons a t ih =>
    cases hfa : f a with
    | none => simp [List.filterMap_cons, hfa, ih]
    | some r =>
      by_cases hp : p r
      · simp [List.filterMap_cons, hfa, hp, ih, List.filter_cons]
      · simp [List.filterMap_cons, hfa, hp, ih, List.filter_cons]

/-- C7: with an exclusion set, `extract_strings` yields exactly the
candidates of the no-exclusion run whose stripped text is not a member of
the set: members are dropped, non-members that pass the other stages are
yielded, and with no exclusion set supplied (`none`, the base of the
equation) this stage drops nothing. -/
theorem c7_exclusion_set (b : List Nat) (L : Int) (xs : List String) :
    extract_strings b L (some xs)
      = (extract_strings b L none).filter (fun s => decide ¬ s.string ∈ xs) := by
  unfold extract_strings
  split
  · rfl
  · rw [filterMap_ext _ _ _ (processCandidate_some_eq L xs)]
    exact filterMap_bind_filter _ _ _

/-! ### C9: the output depends only on the inputs and on the exclusion
set's membership -/

lemma excludeHit_congr (xs ys : List String) (h : ∀ t, t ∈ xs ↔ t ∈ ys)
    (d : String) : excludeHit (some xs) d = excludeHit (some ys) d := by
  rw [excludeHit_some, excludeHit_some]
  exact decide_eq_decide.mpr (h d)

/-- C9: `extract_strings` is deterministic: it is a pure function of the
buffer, `min_length` and the exclusion set's membership, so two runs on the
same buffer with the same `min_length` and the same exclusion set (any two
representations with equal membership) yield identical sequences. -/
theorem c9_deterministic (b : List Nat) (L : Int) (xs ys : List String)
    (h : ∀ t, t ∈ xs ↔ t ∈ ys) :
    extract_strings b L (some xs) = extract_strings b L (some ys) := by
  unfold extract_strings
  split
  · rfl
  · apply filterMap_ext
    intro c
    simp only [processCandidate]
    split
    · rfl
    · split
      · rfl
      · split
        · rfl
        · rw [excludeHit_congr xs ys h]

theorem c9_witness :
    extract_strings [104, 105, 33] 4 (some ["a", "a"])
      = extract_strings [104, 105, 33] 4 (some ["a"]) :=
  c9_deterministic _ _ _ _ (by intro t; simp)

/-! ### C8: offset and encoding are preserved -/

/-- C8: every string yielded by `extract_strings` carries the offset and
encoding of some candidate produced by the run extractor unchanged, its
text being the stripped text of that candidate (the offset is not
re-anchored when stripping shortens the text). -/
theorem c8_offset_encoding_preserved (b : List Nat) (L : Int)
    (e : Option (List String)) (s : StaticString)
    (h : s ∈ extract_strings b L e) :
    ∃ c ∈ extract_ascii_unicode_strings (strip_bytes b false),
      c.offset = s.offset ∧ c.encoding = s.encoding
        ∧ strip_string c.string = s.string := by
  unfold extract_strings at h
  split at h
  · simp at h
  · obtain ⟨c, hcm, hc⟩ := List.mem_filterMap.mp h
    refine ⟨c, hcm, ?_⟩
    simp only [processCandidate] at hc
    split at hc
    · exact absurd hc (by simp)
    · split at hc
      · exact absurd hc (by simp)
      · split at hc
        · exact absurd hc (by simp)
        · split at hc
          · exact absurd hc (by simp)
          · obtain rfl := Option.some.inj hc
            exact ⟨rfl, rfl, rfl⟩

theorem c8_witness :
    ∃ c ∈ extract_ascii_unicode_strings (strip_bytes [48, 86, 65, 104, 101, 108, 108, 111] false),
      c.offset = ((⟨"hello", 0, StringEncoding.ASCII⟩ : StaticString)).offset
      ∧ c.encoding = ((⟨"hello", 0, StringEncoding.ASCII⟩ : StaticString)).encoding
      ∧ strip_string c.string = ((⟨"hello", 0, StringEncoding.ASCII⟩ : StaticString)).string :=
  c8_offset_encoding_preserved [48, 86, 65, 104, 101, 108, 108, 111] 4 none
    ⟨"hello", 0, StringEncoding.ASCII⟩ (by decide)

end Floss

namespace Floss

/-! ### C2: affix stripping -/

lemma reSubF_eq_self (m : Bool → List Char → Option Nat) :
    ∀ (fuel : Nat) (st : Bool) (l : List Char),
      m st l = none → (∀ t, t <:+ l → m false t = none) →
      reSubF m fuel st l = l := by
  intro fuel
  induction fuel with
  | zero => intro st l _ _; rfl
  | succ fuel ih =>
    intro st l h1 h2
    cases l with
    | nil => rfl
    | cons x xs =>
      simp only [reSubF, h1]
      congr 1
      exact ih false xs (h2 xs (List.suffix_cons x xs))
        (fun t ht => h2 t (ht.trans (List.suffix_cons x xs)))

/-- C2 counterexample: the prefix family does not remove only a leading
fragment: on `"XX@AAYY"` it removes the interior fragment `"@AA"` (matched
by the unanchored alternative `@AA` of `FP_FILTER_PREFIXES`), so the result
is not a suffix of the input. -/
theorem c2_counterexample :
    strip_string "XX@AAYY" = "XXYY"
    ∧ ¬ (("XXYY" : String).data <:+ ("XX@AAYY" : String).data) :=
  ⟨by decide, by decide⟩

/-- C2 amended: only the first alternative of the prefix family is anchored
at the start of the string; the remaining alternatives are unanchored and
can remove interior or trailing fragments, and each family's `re.sub` pass
removes every non-overlapping occurrence.  Each family is applied in one
single pass, not re-applied to a fixed point (stripping `"[[AA"` leaves
`"[A"`, which itself still matches the family), and a string in which
neither family matches at any position is returned unchanged. -/
theorem c2_amended :
    (∀ s : String,
        prefixMatchLen true s.data = none →
        (∀ i, i < s.data.length + 1 → prefixMatchLen false (s.data.drop i) = none) →
        (∀ i, i < s.data.length + 1 → suffixMatchLen (s.data.drop i) = none) →
        strip_string s = s)
    ∧ strip_string "XX@AAYY" = "XXYY"
    ∧ strip_string "@AAxy@AA" = "xy"
    ∧ strip_string "[[AA" = "[A" := by
  refine ⟨?_, by decide, by decide, by decide⟩
  intro s h1 h2 h3
  obtain ⟨d⟩ := s
  have hdrop : ∀ t : List Char, t <:+ d → ∃ i, i < d.length + 1 ∧ t = d.drop i := by
    intro t ht
    refine ⟨d.length - t.length, by omega, ?_⟩
    exact List.suffix_iff_eq_drop.mp ht
  have hp : reSubAll prefixMatchLen d = d := by
    apply reSubF_eq_self
    · exact h1
    · intro t ht
      obtain ⟨i, hi, rfl⟩ := hdrop t ht
      exact h2 i hi
  have hs : reSubAll (fun _ t => suffixMatchLen t) d = d := by
    apply reSubF_eq_self
    · simpa using h3 0 (by omega)
    · intro t ht
      obtain ⟨i, hi, rfl⟩ := hdrop t ht
      exact h3 i hi
  show String.mk (reSubAll (fun _ t => suffixMatchLen t) (reSubAll prefixMatchLen d)) = _
  rw [hp, hs]

theorem c2_witness :
    strip_string "zz" = "zz" :=
  c2_amended.1 "zz" (by decide) (by decide) (by decide)

/-! ### C3: repeated-byte collapsing -/

lemma runLen_replicate (v m : Nat) : runLen v (List.replicate m v) = m := by
  induction m with
  | zero => rfl
  | succ m ih => simp [List.replicate_succ, runLen, ih]

/-- C3 counterexample: the `.` of `FP_FILTER_REP_BYTES = (.)\1{3,}` does
not match the newline byte 0x0A, so a run of five newline bytes is not
collapsed by the enabled pre-filter. -/
theorem c3_counterexample :
    strip_bytes (List.replicate 5 10) true = [10, 10, 10, 10, 10]
    ∧ strip_bytes (List.replicate 5 10) true ≠ [0, 0] :=
  ⟨by decide, by decide⟩

/-- C3 amended: with the pre-filter enabled, a run of four or more copies
of any single byte other than 0x0A (newline, which `.` does not match) is
collapsed to exactly two null bytes; in particular five consecutive `A`
bytes surrounded by printable text collapse to two null bytes. -/
theorem c3_amended :
    (∀ (v n : Nat), v ≠ 10 → 4 ≤ n →
        strip_bytes (List.replicate n v) true = [0, 0])
    ∧ strip_bytes [120, 121, 65, 65, 65, 65, 65, 122, 119] true
        = [120, 121, 0, 0, 122, 119] := by
  refine ⟨?_, by decide⟩
  intro v n hv hn
  obtain ⟨m, rfl⟩ : ∃ m, n = (m + 3) + 1 := ⟨n - 4, by omega⟩
  have hrep : repSubF (List.replicate ((m + 3) + 1) v).length
      (List.replicate ((m + 3) + 1) v) = [0, 0] := by
    rw [List.length_replicate, List.replicate_succ]
    simp only [repSubF]
    rw [if_pos ⟨hv, by rw [runLen_replicate]; omega⟩]
    rw [runLen_replicate]
    rw [List.drop_eq_nil_of_le (by simp)]
    cases m <;> rfl
  show (if (true = false) then _ else _) = _
  rw [if_neg (by simp)]
  rw [hrep]
  rfl

theorem c3_witness :
    strip_bytes (List.replicate 5 65) true = [0, 0] :=
  c3_amended.1 65 5 (by decide) (by decide)

end Floss
